import Mathlib

/-!
Verification of the Firehose record-transformation Lambda and its
HMAC-SHA256 sealed-field codec.

The development shallowly embeds the Python sources:
  - `lambda_firehose_handler.py` (`encrypt_payload`, `lambda_handler`)
  - `decrypt_payload.py` (`decrypt_payload`)
Byte strings are `List Nat` (each element a byte value), Python `str`
values are Lean `String`, Python `dict` objects parsed from JSON are
association lists in insertion order, and raised exceptions are modelled
with `Option` / `Except`.
-/

set_option maxRecDepth 100000

/-! ## Base64 (Python `base64.b64encode` / `base64.b64decode`) -/

/-- Character of the standard base64 alphabet at index `n` (`n < 64`). -/
def b64alpha (n : Nat) : Char :=
  if n < 26 then Char.ofNat (65 + n)
  else if n < 52 then Char.ofNat (97 + (n - 26))
  else if n < 62 then Char.ofNat (48 + (n - 52))
  else if n = 62 then '+'
  else '/'

/-- Index of a character in the base64 alphabet, `none` for outsiders. -/
def b64inv (c : Char) : Option Nat :=
  if 65 ≤ c.toNat ∧ c.toNat ≤ 90 then some (c.toNat - 65)
  else if 97 ≤ c.toNat ∧ c.toNat ≤ 122 then some (26 + (c.toNat - 97))
  else if 48 ≤ c.toNat ∧ c.toNat ≤ 57 then some (52 + (c.toNat - 48))
  else if c.toNat = 43 then some 62
  else if c.toNat = 47 then some 63
  else none

/-- Base64 encoding of a byte list, three bytes at a time with `=` padding,
exactly as Python `base64.b64encode` renders it (no line wrapping). -/
def b64encChunks : List Nat → List Char
  | [] => []
  | [a] => [b64alpha (a / 4), b64alpha (a % 4 * 16), '=', '=']
  | [a, b] => [b64alpha (a / 4), b64alpha (a % 4 * 16 + b / 16), b64alpha (b % 16 * 4), '=']
  | a :: b :: c :: rest =>
      b64alpha (a / 4) :: b64alpha (a % 4 * 16 + b / 16) ::
      b64alpha (b % 16 * 4 + c / 64) :: b64alpha (c % 64) :: b64encChunks rest

/-- Python `base64.b64encode(..).decode('utf-8')` as a string. -/
def b64encode (bs : List Nat) : String := String.mk (b64encChunks bs)

/-- One pass of the `binascii.a2b_base64` state machine in its default
non-strict mode: `quad` holds the sextets of the current group, `pad1`
records a `=` already seen after exactly two sextets.  Characters outside
the alphabet are skipped; a group completed by padding ends the decode and
the remaining characters are ignored; a group left incomplete at the end
of the input is an error (`Incorrect padding`). -/
def b64loop : List Char → List Nat → Bool → Option (List Nat)
  | [], quad, _ => if quad.isEmpty then some [] else none
  | c :: rest, quad, pad1 =>
    if c = '=' then
      match quad with
      | [s0, s1] => if pad1 then some [s0 * 4 + s1 / 16] else b64loop rest quad true
      | [s0, s1, s2] => some [s0 * 4 + s1 / 16, s1 % 16 * 16 + s2 / 4]
      | _ => b64loop rest quad pad1
    else
      match b64inv c with
      | none => b64loop rest quad pad1
      | some s =>
        match quad with
        | [s0, s1, s2] =>
          (fun out => (s0 * 4 + s1 / 16) :: (s1 % 16 * 16 + s2 / 4) :: (s2 % 4 * 64 + s) :: out)
            <$> b64loop rest [] false
        | _ => b64loop rest (quad ++ [s]) false

/-- Python `base64.b64decode` applied to a text segment: the argument is
first ASCII-encoded (raising on any non-ASCII character), then decoded by
`binascii.a2b_base64`; `none` models a raised exception. -/
def b64decodeChars (cs : List Char) : Option (List Nat) :=
  if cs.all (fun c => c.toNat < 128) then b64loop cs [] false else none

theorem b64inv_alpha : ∀ n, n < 64 → b64inv (b64alpha n) = some n := by decide

theorem b64alpha_ne_eqsign : ∀ n, n < 64 → b64alpha n ≠ '=' := by decide

theorem b64alpha_ascii : ∀ n, n < 64 → (b64alpha n).toNat < 128 := by decide

theorem b64alpha_ne_colon : ∀ n, n < 64 → b64alpha n ≠ ':' := by decide

theorem b64loop_quad (c1 c2 c3 c4 : Nat) (rest : List Char)
    (h1 : c1 < 64) (h2 : c2 < 64) (h3 : c3 < 64) (h4 : c4 < 64) :
    b64loop (b64alpha c1 :: b64alpha c2 :: b64alpha c3 :: b64alpha c4 :: rest) [] false
      = (fun out => (c1 * 4 + c2 / 16) :: (c2 % 16 * 16 + c3 / 4) :: (c3 % 4 * 64 + c4) :: out)
          <$> b64loop rest [] false := by
  simp [b64loop, b64alpha_ne_eqsign _ h1, b64alpha_ne_eqsign _ h2,
    b64alpha_ne_eqsign _ h3, b64alpha_ne_eqsign _ h4,
    b64inv_alpha _ h1, b64inv_alpha _ h2, b64inv_alpha _ h3, b64inv_alpha _ h4]

/-- Decoding inverts encoding on any list of genuine bytes. -/
theorem b64loop_enc : ∀ bs : List Nat, (∀ x ∈ bs, x < 256) →
    b64loop (b64encChunks bs) [] false = some bs
  | [], _ => rfl
  | [a], h => by
    have ha : a < 256 := h a (by simp)
    have h0 : a / 4 < 64 := by omega
    have h1 : a % 4 * 16 < 64 := by omega
    simp [b64encChunks, b64loop, b64alpha_ne_eqsign _ h0, b64alpha_ne_eqsign _ h1,
      b64inv_alpha _ h0, b64inv_alpha _ h1]
    omega
  | [a, b], h => by
    have ha : a < 256 := h a (by simp)
    have hb : b < 256 := h b (by simp)
    have h0 : a / 4 < 64 := by omega
    have h1 : a % 4 * 16 + b / 16 < 64 := by omega
    have h2 : b % 16 * 4 < 64 := by omega
    simp [b64encChunks, b64loop, b64alpha_ne_eqsign _ h0, b64alpha_ne_eqsign _ h1,
      b64alpha_ne_eqsign _ h2, b64inv_alpha _ h0, b64inv_alpha _ h1, b64inv_alpha _ h2]
    constructor
    · omega
    · omega
  | a :: b :: c :: rest, h => by
    have ha : a < 256 := h a (by simp)
    have hb : b < 256 := h b (by simp)
    have hc : c < 256 := h c (by simp)
    have h0 : a / 4 < 64 := by omega
    have h1 : a % 4 * 16 + b / 16 < 64 := by omega
    have h2 : b % 16 * 4 + c / 64 < 64 := by omega
    have h3 : c % 64 < 64 := by omega
    have ih := b64loop_enc rest (fun x hx => h x (by simp [hx]))
    rw [b64encChunks, b64loop_quad _ _ _ _ _ h0 h1 h2 h3, ih]
    simp
    constructor
    · omega
    constructor
    · omega
    · omega

/-- Every character emitted by the encoder is ASCII and is not `:` nor
outside the alphabet-plus-padding set. -/
theorem b64encChunks_chars : ∀ bs : List Nat, (∀ x ∈ bs, x < 256) →
    ∀ c ∈ b64encChunks bs, c.toNat < 128 ∧ c ≠ ':'
  | [], _ => by simp [b64encChunks]
  | [a], h => by
    have ha : a < 256 := h a (by simp)
    have h0 : a / 4 < 64 := by omega
    have h1 : a % 4 * 16 < 64 := by omega
    simp only [b64encChunks, List.mem_cons, List.not_mem_nil, or_false]
    rintro c (rfl | rfl | rfl | rfl)
    · exact ⟨b64alpha_ascii _ h0, b64alpha_ne_colon _ h0⟩
    · exact ⟨b64alpha_ascii _ h1, b64alpha_ne_colon _ h1⟩
    · exact ⟨by decide, by decide⟩
    · exact ⟨by decide, by decide⟩
  | [a, b], h => by
    have ha : a < 256 := h a (by simp)
    have hb : b < 256 := h b (by simp)
    have h0 : a / 4 < 64 := by omega
    have h1 : a % 4 * 16 + b / 16 < 64 := by omega
    have h2 : b % 16 * 4 < 64 := by omega
    simp only [b64encChunks, List.mem_cons, List.not_mem_nil, or_false]
    rintro c (rfl | rfl | rfl | rfl)
    · exact ⟨b64alpha_ascii _ h0, b64alpha_ne_colon _ h0⟩
    · exact ⟨b64alpha_ascii _ h1, b64alpha_ne_colon _ h1⟩
    · exact ⟨b64alpha_ascii _ h2, b64alpha_ne_colon _ h2⟩
    · exact ⟨by decide, by decide⟩
  | a :: b :: c :: rest, h => by
    have ha : a < 256 := h a (by simp)
    have hb : b < 256 := h b (by simp)
    have hc : c < 256 := h c (by simp)
    have h0 : a / 4 < 64 := by omega
    have h1 : a % 4 * 16 + b / 16 < 64 := by omega
    have h2 : b % 16 * 4 + c / 64 < 64 := by omega
    have h3 : c % 64 < 64 := by omega
    have ih := b64encChunks_chars rest (fun x hx => h x (by simp [hx]))
    simp only [b64encChunks, List.mem_cons]
    rintro d (rfl | rfl | rfl | rfl | hd)
    · exact ⟨b64alpha_ascii _ h0, b64alpha_ne_colon _ h0⟩
    · exact ⟨b64alpha_ascii _ h1, b64alpha_ne_colon _ h1⟩
    · exact ⟨b64alpha_ascii _ h2, b64alpha_ne_colon _ h2⟩
    · exact ⟨b64alpha_ascii _ h3, b64alpha_ne_colon _ h3⟩
    · exact ih d hd

/-- Python `b64decode ∘ b64encode` restores the original bytes. -/
theorem b64decodeChars_enc (bs : List Nat) (hb : ∀ x ∈ bs, x < 256) :
    b64decodeChars (b64encChunks bs) = some bs := by
  have hall : (b64encChunks bs).all (fun c => c.toNat < 128) = true := by
    rw [List.all_eq_true]
    exact fun c hc => decide_eq_true ((b64encChunks_chars bs hb c hc).1)
  rw [b64decodeChars, if_pos hall]
  exact b64loop_enc bs hb

/-! ## UTF-8 (Python `str.encode('utf-8')` / `bytes.decode('utf-8')`) -/

/-- UTF-8 byte sequence of one Unicode scalar value. -/
def utf8Char (n : Nat) : List Nat :=
  if n < 128 then [n]
  else if n < 2048 then [192 + n / 64, 128 + n % 64]
  else if n < 65536 then [224 + n / 4096, 128 + n / 64 % 64, 128 + n % 64]
  else [240 + n / 262144, 128 + n / 4096 % 64, 128 + n / 64 % 64, 128 + n % 64]

/-- Python `str.encode('utf-8')`. -/
def utf8Encode (s : String) : List Nat := s.data.flatMap (fun c => utf8Char c.toNat)

/-- Strict UTF-8 decoding into scalar values, one byte at a time, with
Python `bytes.decode('utf-8')` semantics: stray continuation bytes,
overlong forms, surrogates, values beyond U+10FFFF and truncated
sequences all raise, which is modelled by `none`.  When `need = 0` the
next byte is a lead byte, which selects how many continuation bytes
follow and the allowed range `[lo, hi)` of the first one (the range
encodes the overlong and surrogate restrictions); otherwise `need`
continuation bytes are still expected for the partial scalar `acc`. -/
def utf8Run : List Nat → Nat → Nat → Nat → Nat → Option (List Nat)
  | [], _, need, _, _ => if need = 0 then some [] else none
  | b :: rest, acc, need, lo, hi =>
    if need = 0 then
      if b < 128 then (fun cs => b :: cs) <$> utf8Run rest 0 0 0 0
      else if b < 194 then none
      else if b < 224 then utf8Run rest (b - 192) 1 128 192
      else if b = 224 then utf8Run rest 0 2 160 192
      else if b < 237 then utf8Run rest (b - 224) 2 128 192
      else if b = 237 then utf8Run rest 13 2 128 160
      else if b < 240 then utf8Run rest (b - 224) 2 128 192
      else if b = 240 then utf8Run rest 0 3 144 192
      else if b < 244 then utf8Run rest (b - 240) 3 128 192
      else if b = 244 then utf8Run rest 4 3 128 144
      else none
    else
      if lo ≤ b ∧ b < hi then
        if need = 1 then (fun cs => (acc * 64 + (b - 128)) :: cs) <$> utf8Run rest 0 0 0 0
        else utf8Run rest (acc * 64 + (b - 128)) (need - 1) 128 192
      else none

/-- Python `bytes.decode('utf-8')` producing a string. -/
def utf8Decode (bs : List Nat) : Option String :=
  (utf8Run bs 0 0 0 0).map (fun cs => String.mk (cs.map Char.ofNat))

theorem char_ofNat_toNat (c : Char) : Char.ofNat c.toNat = c := by
  rcases c with ⟨⟨⟨n, hn⟩⟩, h⟩
  have h' : Nat.isValidChar n := h
  simp [Char.ofNat, Char.toNat, UInt32.toNat, h', Char.ofNatAux]
  rfl

theorem utf8Run_cont_one (b : Nat) (rest : List Nat) (acc lo hi : Nat) (h : lo ≤ b ∧ b < hi) :
    utf8Run (b :: rest) acc 1 lo hi
      = (fun cs => (acc * 64 + (b - 128)) :: cs) <$> utf8Run rest 0 0 0 0 := by
  rw [utf8Run, if_neg (by omega), if_pos h, if_pos rfl]

theorem utf8Run_cont_more (b : Nat) (rest : List Nat) (acc need lo hi : Nat)
    (h : lo ≤ b ∧ b < hi) (hn0 : need ≠ 0) (hn1 : need ≠ 1) :
    utf8Run (b :: rest) acc need lo hi
      = utf8Run rest (acc * 64 + (b - 128)) (need - 1) 128 192 := by
  rw [utf8Run, if_neg hn0, if_pos h, if_neg hn1]

/-- Lead-byte step: ASCII. -/
theorem utf8Run_lead1 (b : Nat) (rest : List Nat) (h : b < 128) :
    utf8Run (b :: rest) 0 0 0 0 = (fun cs => b :: cs) <$> utf8Run rest 0 0 0 0 := by
  rw [utf8Run, if_pos rfl, if_pos h]

/-- Lead-byte step: two-byte sequence. -/
theorem utf8Run_lead2 (b : Nat) (rest : List Nat) (h1 : 194 ≤ b) (h2 : b < 224) :
    utf8Run (b :: rest) 0 0 0 0 = utf8Run rest (b - 192) 1 128 192 := by
  have w1 : ¬ b < 128 := by omega
  have w2 : ¬ b < 194 := by omega
  rw [utf8Run, if_pos rfl, if_neg w1, if_neg w2, if_pos h2]

/-- Lead-byte step: three-byte sequence, lead `0xE0` (overlong guard). -/
theorem utf8Run_lead3a (rest : List Nat) :
    utf8Run (224 :: rest) 0 0 0 0 = utf8Run rest 0 2 160 192 := rfl

/-- Lead-byte step: generic three-byte lead other than `0xE0`/`0xED`. -/
theorem utf8Run_lead3b (b : Nat) (rest : List Nat)
    (h : (225 ≤ b ∧ b ≤ 236) ∨ (238 ≤ b ∧ b ≤ 239)) :
    utf8Run (b :: rest) 0 0 0 0 = utf8Run rest (b - 224) 2 128 192 := by
  have w1 : ¬ b < 128 := by omega
  have w2 : ¬ b < 194 := by omega
  have w3 : ¬ b < 224 := by omega
  have w4 : ¬ b = 224 := by omega
  rcases h with ⟨ha, hb⟩ | ⟨ha, hb⟩
  · have w5 : b < 237 := by omega
    rw [utf8Run, if_pos rfl, if_neg w1, if_neg w2, if_neg w3, if_neg w4, if_pos w5]
  · have w5 : ¬ b < 237 := by omega
    have w6 : ¬ b = 237 := by omega
    have w7 : b < 240 := by omega
    rw [utf8Run, if_pos rfl, if_neg w1, if_neg w2, if_neg w3, if_neg w4, if_neg w5, if_neg w6,
      if_pos w7]

/-- Lead-byte step: lead `0xED` (surrogate guard). -/
theorem utf8Run_lead3c (rest : List Nat) :
    utf8Run (237 :: rest) 0 0 0 0 = utf8Run rest 13 2 128 160 := rfl

/-- Lead-byte step: four-byte sequence, lead `0xF0` (overlong guard). -/
theorem utf8Run_lead4a (rest : List Nat) :
    utf8Run (240 :: rest) 0 0 0 0 = utf8Run rest 0 3 144 192 := rfl

/-- Lead-byte step: generic four-byte lead other than `0xF0`/`0xF4`. -/
theorem utf8Run_lead4b (b : Nat) (rest : List Nat) (h1 : 241 ≤ b) (h2 : b ≤ 243) :
    utf8Run (b :: rest) 0 0 0 0 = utf8Run rest (b - 240) 3 128 192 := by
  have w1 : ¬ b < 128 := by omega
  have w2 : ¬ b < 194 := by omega
  have w3 : ¬ b < 224 := by omega
  have w4 : ¬ b = 224 := by omega
  have w5 : ¬ b < 237 := by omega
  have w6 : ¬ b = 237 := by omega
  have w7 : ¬ b < 240 := by omega
  have w8 : ¬ b = 240 := by omega
  have w9 : b < 244 := by omega
  rw [utf8Run, if_pos rfl, if_neg w1, if_neg w2, if_neg w3, if_neg w4, if_neg w5, if_neg w6,
    if_neg w7, if_neg w8, if_pos w9]

/-- Lead-byte step: lead `0xF4` (upper-bound guard). -/
theorem utf8Run_lead4c (rest : List Nat) :
    utf8Run (244 :: rest) 0 0 0 0 = utf8Run rest 4 3 128 144 := rfl

theorem utf8Run_char (c : Char) (rest : List Nat) :
    utf8Run (utf8Char c.toNat ++ rest) 0 0 0 0
      = (fun cs => c.toNat :: cs) <$> utf8Run rest 0 0 0 0 := by
  have hval : c.toNat < 55296 ∨ (57343 < c.toNat ∧ c.toNat < 1114112) := c.valid
  set n := c.toNat with hn
  by_cases h1 : n < 128
  · rw [utf8Char, if_pos h1, List.cons_append, List.nil_append, utf8Run_lead1 _ _ h1]
  · by_cases h2 : n < 2048
    · rw [utf8Char, if_neg h1, if_pos h2]
      simp only [List.cons_append, List.nil_append]
      rw [utf8Run_lead2 _ _ (by omega) (by omega), utf8Run_cont_one _ _ _ _ _ (by omega)]
      have hcp : (192 + n / 64 - 192) * 64 + (128 + n % 64 - 128) = n := by omega
      rw [hcp]
    · by_cases h3 : n < 65536
      · rw [utf8Char, if_neg h1, if_neg h2, if_pos h3]
        simp only [List.cons_append, List.nil_append]
        by_cases hA : n < 4096
        · have h224 : 224 + n / 4096 = 224 := by omega
          rw [h224, utf8Run_lead3a, utf8Run_cont_more _ _ _ _ _ _ (by omega) (by omega)
            (by omega), utf8Run_cont_one _ _ _ _ _ (by omega)]
          have hcp : (0 * 64 + (128 + n / 64 % 64 - 128)) * 64 + (128 + n % 64 - 128) = n := by
            omega
          rw [hcp]
        · by_cases hB : n < 53248
          · rw [utf8Run_lead3b _ _ (by omega), utf8Run_cont_more _ _ _ _ _ _ (by omega)
              (by omega) (by omega), utf8Run_cont_one _ _ _ _ _ (by omega)]
            have hcp : ((224 + n / 4096 - 224) * 64 + (128 + n / 64 % 64 - 128)) * 64 +
                (128 + n % 64 - 128) = n := by omega
            rw [hcp]
          · by_cases hC : n < 57344
            · have hD : n < 55296 := by omega
              have h237 : 224 + n / 4096 = 237 := by omega
              rw [h237, utf8Run_lead3c, utf8Run_cont_more _ _ _ _ _ _ (by omega) (by omega)
                (by omega), utf8Run_cont_one _ _ _ _ _ (by omega)]
              have hcp : (13 * 64 + (128 + n / 64 % 64 - 128)) * 64 +
                  (128 + n % 64 - 128) = n := by omega
              rw [hcp]
            · rw [utf8Run_lead3b _ _ (by omega), utf8Run_cont_more _ _ _ _ _ _ (by omega)
                (by omega) (by omega), utf8Run_cont_one _ _ _ _ _ (by omega)]
              have hcp : ((224 + n / 4096 - 224) * 64 + (128 + n / 64 % 64 - 128)) * 64 +
                  (128 + n % 64 - 128) = n := by omega
              rw [hcp]
      · have h4 : n < 1114112 := by omega
        rw [utf8Char, if_neg h1, if_neg h2, if_neg h3]
        simp only [List.cons_append, List.nil_append]
        by_cases hA : n < 262144
        · have h240 : 240 + n / 262144 = 240 := by omega
          rw [h240, utf8Run_lead4a, utf8Run_cont_more _ _ _ _ _ _ (by omega) (by omega)
            (by omega), utf8Run_cont_more _ _ _ _ _ _ (by omega) (by omega) (by omega),
            utf8Run_cont_one _ _ _ _ _ (by omega)]
          have hcp : ((0 * 64 + (128 + n / 4096 % 64 - 128)) * 64 +
              (128 + n / 64 % 64 - 128)) * 64 + (128 + n % 64 - 128) = n := by omega
          rw [hcp]
        · by_cases hB : n < 1048576
          · rw [utf8Run_lead4b _ _ (by omega) (by omega), utf8Run_cont_more _ _ _ _ _ _
              (by omega) (by omega) (by omega), utf8Run_cont_more _ _ _ _ _ _ (by omega)
              (by omega) (by omega), utf8Run_cont_one _ _ _ _ _ (by omega)]
            have hcp : (((240 + n / 262144 - 240) * 64 + (128 + n / 4096 % 64 - 128)) * 64 +
                (128 + n / 64 % 64 - 128)) * 64 + (128 + n % 64 - 128) = n := by omega
            rw [hcp]
          · have h244 : 240 + n / 262144 = 244 := by omega
            rw [h244, utf8Run_lead4c, utf8Run_cont_more _ _ _ _ _ _ (by omega) (by omega)
              (by omega), utf8Run_cont_more _ _ _ _ _ _ (by omega) (by omega) (by omega),
              utf8Run_cont_one _ _ _ _ _ (by omega)]
            have hcp : ((4 * 64 + (128 + n / 4096 % 64 - 128)) * 64 +
                (128 + n / 64 % 64 - 128)) * 64 + (128 + n % 64 - 128) = n := by omega
            rw [hcp]

theorem utf8Run_encode : ∀ cs : List Char,
    utf8Run (cs.flatMap (fun c => utf8Char c.toNat)) 0 0 0 0 = some (cs.map Char.toNat)
  | [] => rfl
  | c :: cs => by
    rw [List.flatMap_cons, utf8Run_char, utf8Run_encode cs]
    rfl

/-- Decoding the UTF-8 encoding of any string restores it. -/
theorem utf8Decode_encode (s : String) : utf8Decode (utf8Encode s) = some s := by
  rw [utf8Decode, utf8Encode, utf8Run_encode]
  show some (String.mk ((s.data.map Char.toNat).map Char.ofNat)) = some s
  rw [List.map_map]
  have hid : (Char.ofNat ∘ Char.toNat) = id := funext char_ofNat_toNat
  rw [hid, List.map_id]

/-! ## SHA-256 and HMAC (Python `hashlib.sha256`, `hmac.new(..).digest()`),
on bytes as `List Nat` with 32-bit words as `Nat` reduced mod `2 ^ 32`. -/

/-- Round constants of SHA-256. -/
def shaK : List Nat :=
  [1116352408, 1899447441, 3049323471, 3921009573, 961987163, 1508970993,
   2453635748, 2870763221, 3624381080, 310598401, 607225278, 1426881987,
   1925078388, 2162078206, 2614888103, 3248222580, 3835390401, 4022224774,
   264347078, 604807628, 770255983, 1249150122, 1555081692, 1996064986,
   2554220882, 2821834349, 2952996808, 3210313671, 3336571891, 3584528711,
   113926993, 338241895, 666307205, 773529912, 1294757372, 1396182291,
   1695183700, 1986661051, 2177026350, 2456956037, 2730485921, 2820302411,
   3259730800, 3345764771, 3516065817, 3600352804, 4094571909, 275423344,
   430227734, 506948616, 659060556, 883997877, 958139571, 1322822218,
   1537002063, 1747873779, 1955562222, 2024104815, 2227730452, 2361852424,
   2428436474, 2756734187, 3204031479, 3329325298]

/-- Right rotation of a 32-bit word. -/
def rotr32 (n x : Nat) : Nat := x / 2 ^ n + x % 2 ^ n * 2 ^ (32 - n)

/-- Working state of the SHA-256 compression function. -/
structure ShaState where
  a : Nat
  b : Nat
  c : Nat
  d : Nat
  e : Nat
  f : Nat
  g : Nat
  h : Nat
deriving DecidableEq

/-- Initial hash value of SHA-256. -/
def shaH0 : ShaState :=
  ⟨1779033703, 3144134277, 1013904242, 2773480762, 1359893119, 2600822924, 528734635, 1541459225⟩

/-- One SHA-256 round; `kw` is the round constant already added to the
scheduled word, mod `2 ^ 32`. -/
def shaRound (st : ShaState) (kw : Nat) : ShaState :=
  let s1 := Nat.xor (Nat.xor (rotr32 6 st.e) (rotr32 11 st.e)) (rotr32 25 st.e)
  let ch := Nat.xor (Nat.land st.e st.f) (Nat.land (4294967295 - st.e) st.g)
  let t1 := (st.h + s1 + ch + kw) % 4294967296
  let s0 := Nat.xor (Nat.xor (rotr32 2 st.a) (rotr32 13 st.a)) (rotr32 22 st.a)
  let mj := Nat.xor (Nat.xor (Nat.land st.a st.b) (Nat.land st.a st.c)) (Nat.land st.b st.c)
  let t2 := (s0 + mj) % 4294967296
  ⟨(t1 + t2) % 4294967296, st.a, st.b, st.c, (st.d + t1) % 4294967296, st.e, st.f, st.g⟩

/-- Message-schedule extension: append `n` more scheduled words. -/
def shaExt : List Nat → Nat → List Nat
  | ws, 0 => ws
  | ws, n + 1 =>
    let w2 := ws.getD (ws.length - 2) 0
    let w7 := ws.getD (ws.length - 7) 0
    let w15 := ws.getD (ws.length - 15) 0
    let w16 := ws.getD (ws.length - 16) 0
    let s0 := Nat.xor (Nat.xor (rotr32 7 w15) (rotr32 18 w15)) (w15 / 8)
    let s1 := Nat.xor (Nat.xor (rotr32 17 w2) (rotr32 19 w2)) (w2 / 1024)
    shaExt (ws ++ [(w16 + s0 + w7 + s1) % 4294967296]) n

/-- SHA-256 compression of one 16-word block into the chaining state. -/
def shaCompress (st : ShaState) (block : List Nat) : ShaState :=
  let ws := shaExt block 48
  let kw := List.zipWith (fun k w => (k + w) % 4294967296) shaK ws
  let fin := kw.foldl shaRound st
  ⟨(st.a + fin.a) % 4294967296, (st.b + fin.b) % 4294967296, (st.c + fin.c) % 4294967296,
   (st.d + fin.d) % 4294967296, (st.e + fin.e) % 4294967296, (st.f + fin.f) % 4294967296,
   (st.g + fin.g) % 4294967296, (st.h + fin.h) % 4294967296⟩

/-- Big-endian 32-bit words from bytes. -/
def toWords : List Nat → List Nat
  | b0 :: b1 :: b2 :: b3 :: rest => (((b0 * 256 + b1) * 256 + b2) * 256 + b3) :: toWords rest
  | _ => []

/-- Group a word list into 16-word blocks. -/
def toBlocks : List Nat → List (List Nat)
  | w0 :: w1 :: w2 :: w3 :: w4 :: w5 :: w6 :: w7 :: w8 :: w9 :: w10 :: w11 :: w12 :: w13 ::
      w14 :: w15 :: rest =>
    [w0, w1, w2, w3, w4, w5, w6, w7, w8, w9, w10, w11, w12, w13, w14, w15] :: toBlocks rest
  | _ => []

/-- Big-endian bytes of a 32-bit word. -/
def wordBytes (w : Nat) : List Nat :=
  [w / 16777216 % 256, w / 65536 % 256, w / 256 % 256, w % 256]

/-- Merkle–Damgård padding: `0x80`, zeros to 56 mod 64, then the 64-bit
big-endian bit length. -/
def shaPad (msg : List Nat) : List Nat :=
  let bitLen := msg.length * 8
  msg ++ 128 :: List.replicate ((119 - msg.length % 64) % 64) 0 ++
    [bitLen / 72057594037927936 % 256, bitLen / 281474976710656 % 256,
     bitLen / 1099511627776 % 256, bitLen / 4294967296 % 256, bitLen / 16777216 % 256,
     bitLen / 65536 % 256, bitLen / 256 % 256, bitLen % 256]

/-- The SHA-256 digest (32 bytes) of a byte string: Python
`hashlib.sha256(msg).digest()`. -/
def sha256 (msg : List Nat) : List Nat :=
  let fin := (toBlocks (toWords (shaPad msg))).foldl shaCompress shaH0
  [fin.a, fin.b, fin.c, fin.d, fin.e, fin.f, fin.g, fin.h].flatMap wordBytes

/-- Python `hmac.new(key, msg, hashlib.sha256).digest()`. -/
def hmacSha256 (key msg : List Nat) : List Nat :=
  let k0 := if 64 < key.length then sha256 key else key
  let kp := k0 ++ List.replicate (64 - k0.length) 0
  sha256 ((kp.map (fun b => Nat.xor b 92)) ++ sha256 ((kp.map (fun b => Nat.xor b 54)) ++ msg))

/-- FIPS 180-4 test vector: digest of the empty message. -/
theorem sha256_empty : sha256 [] =
    [0xe3, 0xb0, 0xc4, 0x42, 0x98, 0xfc, 0x1c, 0x14, 0x9a, 0xfb, 0xf4, 0xc8, 0x99, 0x6f, 0xb9,
     0x24, 0x27, 0xae, 0x41, 0xe4, 0x64, 0x9b, 0x93, 0x4c, 0xa4, 0x95, 0x99, 0x1b, 0x78, 0x52,
     0xb8, 0x55] := by decide

/-- FIPS 180-4 test vector: digest of `"abc"`. -/
theorem sha256_abc : sha256 (utf8Encode "abc") =
    [0xba, 0x78, 0x16, 0xbf, 0x8f, 0x01, 0xcf, 0xea, 0x41, 0x41, 0x40, 0xde, 0x5d, 0xae, 0x22,
     0x23, 0xb0, 0x03, 0x61, 0xa3, 0x96, 0x17, 0x7a, 0x9c, 0xb4, 0x10, 0xff, 0x61, 0xf2, 0x00,
     0x15, 0xad] := by decide

/-- RFC 4231 test case 2 for HMAC-SHA256 (key `"Jefe"`). -/
theorem hmac_jefe : hmacSha256 (utf8Encode "Jefe") (utf8Encode "what do ya want for nothing?") =
    [0x5b, 0xdc, 0xc1, 0x46, 0xbf, 0x60, 0x75, 0x4e, 0x6a, 0x04, 0x24, 0x26, 0x08, 0x95, 0x75,
     0xc7, 0x5a, 0x00, 0x3f, 0x08, 0x9d, 0x27, 0x39, 0x83, 0x9d, 0xec, 0x58, 0xb9, 0x64, 0xec,
     0x38, 0x43] := by decide

/-- Every byte of a SHA-256 digest is below 256. -/
theorem sha256_lt (msg : List Nat) : ∀ x ∈ sha256 msg, x < 256 := by
  intro x hx
  simp only [sha256] at hx
  rcases List.mem_flatMap.mp hx with ⟨w, _, hxw⟩
  simp only [wordBytes, List.mem_cons, List.not_mem_nil, or_false] at hxw
  rcases hxw with rfl | rfl | rfl | rfl <;> omega

/-- Every byte of an HMAC-SHA256 tag is below 256. -/
theorem hmacSha256_lt (key msg : List Nat) : ∀ x ∈ hmacSha256 key msg, x < 256 := by
  intro x hx
  simp only [hmacSha256] at hx
  exact sha256_lt _ x hx

/-! ## Sealed-field codec: sealing in `encrypt_payload`, `decrypt_payload` -/

/-- Shared secret key embedded in both scripts (`b'sudhir1234567890'`). -/
def secretKey : List Nat := utf8Encode "sudhir1234567890"

/-- Python `str.split(':')`: split on every colon. -/
def splitColon : List Char → List (List Char)
  | [] => [[]]
  | c :: rest =>
    let parts := splitColon rest
    if c = ':' then [] :: parts
    else (c :: parts.headD []) :: parts.tail

/-- Sealed value `base64(data) + ":" + base64(hmac)` built by the sealing
logic of `encrypt_payload` for payload bytes `data`. -/
def sealValue (data key : List Nat) : String :=
  b64encode data ++ ":" ++ b64encode (hmacSha256 key data)

/-- Python `decrypt_payload(encrypted_data, secret_key)` from
`decrypt_payload.py`: split on `:` (the unpacking raises unless exactly
two parts result), base64-decode both segments, recompute the tag,
compare with `hmac.compare_digest`, and UTF-8-decode the data bytes; any
exception is caught and collapsed to `(none, false)`. -/
def decrypt_payload (encryptedData : String) (key : List Nat) : Option String × Bool :=
  match splitColon encryptedData.data with
  | [dataB64, hmacB64] =>
    match b64decodeChars dataB64, b64decodeChars hmacB64 with
    | some dataBytes, some receivedHmac =>
      let isValid := receivedHmac == hmacSha256 key dataBytes
      match utf8Decode dataBytes with
      | some txt => (some txt, isValid)
      | none => (none, false)
    | _, _ => (none, false)
  | _ => (none, false)

theorem splitColon_no_colon : ∀ cs : List Char, ':' ∉ cs → splitColon cs = [cs]
  | [], _ => rfl
  | c :: rest, h => by
    have hc : c ≠ ':' := fun hc => h (hc ▸ List.mem_cons_self c rest)
    have ih := splitColon_no_colon rest (fun hr => h (List.mem_cons_of_mem c hr))
    rw [splitColon]
    rw [ih]
    simp [if_neg hc]

theorem splitColon_append : ∀ xs ys : List Char, ':' ∉ xs →
    splitColon (xs ++ ':' :: ys) = xs :: splitColon ys
  | [], ys, _ => by
    rw [List.nil_append, splitColon]
    simp
  | x :: xs, ys, h => by
    have hx : x ≠ ':' := fun hc => h (hc ▸ List.mem_cons_self x xs)
    have ih := splitColon_append xs ys (fun hr => h (List.mem_cons_of_mem x hr))
    rw [List.cons_append, splitColon]
    rw [ih]
    simp [if_neg hx]

/-- Unsealing a sealed value with the sealing key: the tag always
verifies, and the data comes back whenever it is valid UTF-8. -/
theorem decrypt_seal (key data : List Nat) (hd : ∀ x ∈ data, x < 256) :
    decrypt_payload (sealValue data key) key
      = match utf8Decode data with
        | some txt => (some txt, true)
        | none => (none, false) := by
  have htag : ∀ x ∈ hmacSha256 key data, x < 256 := hmacSha256_lt key data
  have hsplit : splitColon (sealValue data key).data
      = [b64encChunks data, b64encChunks (hmacSha256 key data)] := by
    have hdata : (sealValue data key).data
        = b64encChunks data ++ ':' :: b64encChunks (hmacSha256 key data) := by
      simp [sealValue, b64encode, String.data_append]
    rw [hdata, splitColon_append _ _ (fun hc => ((b64encChunks_chars data hd _ hc).2 rfl)),
      splitColon_no_colon _ (fun hc => ((b64encChunks_chars _ htag _ hc).2 rfl))]
  rw [decrypt_payload, hsplit]
  simp only [b64decodeChars_enc data hd, b64decodeChars_enc _ htag, beq_self_eq_true]

/-! ## JSON values (Python `json.loads` / `json.dumps` and dict operations) -/

mutual

/-- JSON values as Python `json.loads` produces them; objects keep key
insertion order like Python dicts.  An integer-form number is a Python
`int` (`num`); a fractional, exponent, `Infinity` or `NaN` number is a
Python float, carried as its scanned literal (`flt`) — its IEEE value
and shortest-repr serialization are outside the model, and this system
reads floats only for truthiness and for being non-strings.  A string
containing lone surrogates, which a Python `str` allows but a Lean
`String` cannot, is carried as its code points (`strE`). -/
inductive Json where
  | str (s : String)
  | num (n : Int)
  | flt (lit : String)
  | bool (b : Bool)
  | null
  | arr (xs : JsonList)
  | obj (kvs : JsonObj)
  | strE (cps : List Nat)
deriving DecidableEq

/-- Elements of a JSON array. -/
inductive JsonList where
  | nil
  | cons (hd : Json) (tl : JsonList)
deriving DecidableEq

/-- Members of a JSON object, in insertion order.  A key containing lone
surrogates is kept as its code points (`consE`); such a key can never
equal a scalar-only string key. -/
inductive JsonObj where
  | nil
  | cons (key : String) (val : Json) (tl : JsonObj)
  | consE (key : List Nat) (val : Json) (tl : JsonObj)
deriving DecidableEq

end

/-- Python `dict.get k` with a scalar-only string key (`none` for a
missing key); a lone-surrogate key never equals such a key and is
walked past. -/
def jsonGet : JsonObj → String → Option Json
  | .nil, _ => none
  | .cons k2 v rest, k => if k2 = k then some v else jsonGet rest k
  | .consE _ _ rest, k => jsonGet rest k

/-- Python `d[k] = v` on an insertion-ordered dict with a scalar-only
string key: replace in place if the key exists, else append at the end. -/
def jsonSet : JsonObj → String → Json → JsonObj
  | .nil, k, v => .cons k v .nil
  | .cons k2 v2 rest, k, v =>
    if k2 = k then .cons k2 v rest else .cons k2 v2 (jsonSet rest k v)
  | .consE k2 v2 rest, k, v => .consE k2 v2 (jsonSet rest k v)

/-- Python `d[k] = v` for a key carrying lone surrogates (only ever
called with one, so it equals no scalar-only string key). -/
def jsonSetE : JsonObj → List Nat → Json → JsonObj
  | .nil, k, v => .consE k v .nil
  | .cons k2 v2 rest, k, v => .cons k2 v2 (jsonSetE rest k v)
  | .consE k2 v2 rest, k, v =>
    if k2 = k then .consE k2 v rest else .consE k2 v2 (jsonSetE rest k v)

/-- Python truthiness of the float a number literal denotes: zero
exactly when the literal has digits and every mantissa digit is `0`
(`Infinity` and `NaN` are truthy; denormal underflow to zero, reachable
only below the 1e-308 scale, is outside the model). -/
def fltIsZero (lit : String) : Bool :=
  lit.data.any (fun c => c.isDigit) &&
    (lit.data.takeWhile (fun c => !(c == 'e' || c == 'E'))).all
      (fun c => !c.isDigit || c == '0')

/-- Python truthiness of a JSON value. -/
def jsonTruthy : Json → Bool
  | .str s => !s.isEmpty
  | .num n => n != 0
  | .flt lit => !fltIsZero lit
  | .strE cps => !cps.isEmpty
  | .bool b => b
  | .null => false
  | .arr .nil => false
  | .arr _ => true
  | .obj .nil => false
  | .obj _ => true

/-- Python `str.lower()`; its action is ASCII case folding on every
character this system compares (`Char.toLower` lowercases exactly
`'A'`–`'Z'`). -/
def pyLower (s : String) : String := String.mk (s.data.map Char.toLower)

/-- Branch of `encrypt_payload` taken when the flag reads `'true'`:
fetch `ApplicationData.Payload` with default `''`, test truthiness,
seal the text and set the two fields.  `.encode('utf-8')` on a truthy
non-string raises, modelled by `Except.error ()`. -/
def encryptBody (kvs : JsonObj) : Except Unit Json :=
  let dataToEncrypt := (jsonGet kvs "ApplicationData.Payload").getD (.str "")
  if jsonTruthy dataToEncrypt then
    match dataToEncrypt with
    | .str s =>
      .ok (.obj (jsonSet (jsonSet kvs "ApplicationData.Payload"
        (.str (sealValue (utf8Encode s) secretKey))) "ApplicationData.Encrypted" (.str "true")))
    | _ => .error ()
  else .ok (.obj kvs)

/-- Python `encrypt_payload(payload)` from `lambda_firehose_handler.py`
applied to the parsed JSON value: read the `ApplicationData.Encrypt`
control value with default `'false'`, lowercase it, and seal when it
reads `'true'`.  `Except.error ()` models a raised exception: `.get` on a
non-dict payload, `.lower()` on a non-string control value, or `.encode`
on a non-string payload field.  A control value that is a `str` with
lone surrogates lowercases without raising and still contains the
surrogate, so it can never read `'true'`: the envelope is returned
unchanged. -/
def encrypt_payload : Json → Except Unit Json
  | .obj kvs =>
    match jsonGet kvs "ApplicationData.Encrypt" with
    | some (.str f) => if pyLower f = "true" then encryptBody kvs else .ok (.obj kvs)
    | some (.strE _) => .ok (.obj kvs)
    | none => .ok (.obj kvs)
    | some _ => .error ()
  | _ => .error ()

/-- Opening brace character. -/
def lbrace : Char := Char.ofNat 123

/-- Closing brace character. -/
def rbrace : Char := Char.ofNat 125

/-- Lower-case hex digit of a value below 16. -/
def hexDigit (n : Nat) : Char := if n < 10 then Char.ofNat (48 + n) else Char.ofNat (87 + n)

/-- Four-digit `\uXXXX` escape body of a value below 65536. -/
def uEscape (n : Nat) : List Char :=
  ['\\', 'u', hexDigit (n / 4096 % 16), hexDigit (n / 256 % 16), hexDigit (n / 16 % 16),
   hexDigit (n % 16)]

/-- Python `json.dumps` rendering of one string character with the
default `ensure_ascii=True`: two-character escapes for the quote, the
backslash and the common control characters, `\uXXXX` for the other
control characters and everything non-ASCII, surrogate-pair escapes for
astral characters. -/
def jsonEscChar (c : Char) : List Char :=
  if c = '"' then ['\\', '"']
  else if c = '\\' then ['\\', '\\']
  else if c = '\n' then ['\\', 'n']
  else if c = '\t' then ['\\', 't']
  else if c = '\r' then ['\\', 'r']
  else if c.toNat = 8 then ['\\', 'b']
  else if c.toNat = 12 then ['\\', 'f']
  else if c.toNat < 32 ∨ 127 ≤ c.toNat then
    if c.toNat < 65536 then uEscape c.toNat
    else uEscape (55296 + (c.toNat - 65536) / 1024) ++ uEscape (56320 + (c.toNat - 65536) % 1024)
  else [c]

/-- Python `json.dumps` rendering of a whole string literal. -/
def dumpsStr (s : String) : String := String.mk ('"' :: s.data.flatMap jsonEscChar ++ ['"'])

/-- Python `json.dumps` rendering of one code point
(`ensure_ascii=True`); a lone surrogate serializes as its own `\uXXXX`
escape. -/
def jsonEscCp (n : Nat) : List Char :=
  if n = 34 then ['\\', '"']
  else if n = 92 then ['\\', '\\']
  else if n = 10 then ['\\', 'n']
  else if n = 9 then ['\\', 't']
  else if n = 13 then ['\\', 'r']
  else if n = 8 then ['\\', 'b']
  else if n = 12 then ['\\', 'f']
  else if n < 32 ∨ 127 ≤ n then
    if n < 65536 then uEscape n
    else uEscape (55296 + (n - 65536) / 1024) ++ uEscape (56320 + (n - 65536) % 1024)
  else [Char.ofNat n]

/-- Rendering of a string value carried as code points. -/
def dumpsStrE (cps : List Nat) : String := String.mk ('"' :: cps.flatMap jsonEscCp ++ ['"'])

mutual

/-- Python `json.dumps` with its default separators `(', ', ': ')` and
`ensure_ascii=True`. -/
def dumps : Json → String
  | .str s => dumpsStr s
  | .num n => toString n
  | .flt lit => lit
  | .strE cps => dumpsStrE cps
  | .bool true => "true"
  | .bool false => "false"
  | .null => "null"
  | .arr xs => "[" ++ dumpsArr xs ++ "]"
  | .obj kvs => String.mk [lbrace] ++ dumpsObj kvs ++ String.mk [rbrace]

/-- Comma-separated members of an array. -/
def dumpsArr : JsonList → String
  | .nil => ""
  | .cons x .nil => dumps x
  | .cons x (.cons y rest) => dumps x ++ ", " ++ dumpsArr (.cons y rest)

/-- Comma-separated `"key": value` members of an object. -/
def dumpsObj : JsonObj → String
  | .nil => ""
  | .cons k v .nil => dumpsStr k ++ ": " ++ dumps v
  | .consE k v .nil => dumpsStrE k ++ ": " ++ dumps v
  | .cons k v tl => dumpsStr k ++ ": " ++ dumps v ++ ", " ++ dumpsObj tl
  | .consE k v tl => dumpsStrE k ++ ": " ++ dumps v ++ ", " ++ dumpsObj tl

end

/-- Python JSON whitespace. -/
def isJsonWs (c : Char) : Bool := c = ' ' || c = '\t' || c = '\n' || c = '\r'

/-- Skip insignificant whitespace. -/
def skipWs (cs : List Char) : List Char := cs.dropWhile isJsonWs

/-- Value of a hex digit character. -/
def hexVal (c : Char) : Option Nat :=
  if 48 ≤ c.toNat ∧ c.toNat ≤ 57 then some (c.toNat - 48)
  else if 97 ≤ c.toNat ∧ c.toNat ≤ 102 then some (c.toNat - 87)
  else if 65 ≤ c.toNat ∧ c.toNat ≤ 70 then some (c.toNat - 55)
  else none

/-- Python JSON string-literal scanner, after the opening quote: returns
the code points of the `str` value and the rest after the closing
quote.  Escapes are the JSON two-character ones plus `\uXXXX`; a high
surrogate escape immediately followed by a low surrogate escape
combines into one astral code point, and any other surrogate escape is
kept as a lone surrogate code point, exactly as Python keeps it in the
`str`; a raw control character or an invalid escape raises (`none`),
including a malformed `\uXXXX` right after a high surrogate.  The fuel
only bounds the recursion (every step consumes input, and callers pass
the input length), because the unpaired-high-surrogate step re-reads
the peeked escape without consuming it. -/
def parseStrChars : Nat → List Char → Option (List Nat × List Char)
  | 0, _ => none
  | _, [] => none
  | fuel + 1, c :: rest =>
    if c = '"' then some ([], rest)
    else if c = '\\' then
      match rest with
      | [] => none
      | e :: rest2 =>
        if e = '"' ∨ e = '\\' ∨ e = '/' then
          (fun p => (e.toNat :: p.1, p.2)) <$> parseStrChars fuel rest2
        else if e = 'b' then (fun p => (8 :: p.1, p.2)) <$> parseStrChars fuel rest2
        else if e = 'f' then (fun p => (12 :: p.1, p.2)) <$> parseStrChars fuel rest2
        else if e = 'n' then (fun p => (10 :: p.1, p.2)) <$> parseStrChars fuel rest2
        else if e = 'r' then (fun p => (13 :: p.1, p.2)) <$> parseStrChars fuel rest2
        else if e = 't' then (fun p => (9 :: p.1, p.2)) <$> parseStrChars fuel rest2
        else if e = 'u' then
          match rest2 with
          | c1 :: c2 :: c3 :: c4 :: rest3 =>
            match hexVal c1, hexVal c2, hexVal c3, hexVal c4 with
            | some h1, some h2, some h3, some h4 =>
              let n := ((h1 * 16 + h2) * 16 + h3) * 16 + h4
              if 55296 ≤ n ∧ n < 56320 then
                match rest3 with
                | b1 :: b2 :: c5 :: c6 :: c7 :: c8 :: rest5 =>
                  if b1 = '\\' ∧ b2 = 'u' then
                    match hexVal c5, hexVal c6, hexVal c7, hexVal c8 with
                    | some h5, some h6, some h7, some h8 =>
                      let m := ((h5 * 16 + h6) * 16 + h7) * 16 + h8
                      if 56320 ≤ m ∧ m < 57344 then
                        (fun p => ((65536 + (n - 55296) * 1024 + (m - 56320)) :: p.1, p.2))
                          <$> parseStrChars fuel rest5
                      else (fun p => (n :: p.1, p.2)) <$> parseStrChars fuel rest3
                    | _, _, _, _ => none
                  else (fun p => (n :: p.1, p.2)) <$> parseStrChars fuel rest3
                | _ => (fun p => (n :: p.1, p.2)) <$> parseStrChars fuel rest3
              else (fun p => (n :: p.1, p.2)) <$> parseStrChars fuel rest3
            | _, _, _, _ => none
          | _ => none
        else none
    else if c.toNat < 32 then none
    else (fun p => (c.toNat :: p.1, p.2)) <$> parseStrChars fuel rest

/-- True when every code point is a Unicode scalar value, i.e. the
Python `str` has a direct Lean `String` counterpart. -/
def cpsScalar (cps : List Nat) : Bool :=
  cps.all (fun n => n < 55296 || (57343 < n && n < 1114112))

/-- String of a scalar-only code-point list. -/
def cpsToString (cps : List Nat) : String := String.mk (cps.map Char.ofNat)

/-- Parsed JSON string value: a Lean `String` when every code point is
a scalar value, the raw code points (`Json.strE`) when a lone surrogate
is present. -/
def mkPyStr (cps : List Nat) : Json :=
  if cpsScalar cps then .str (cpsToString cps) else .strE cps

/-- Numeric value of a digit string. -/
def digitsVal (ds : List Char) : Nat := ds.foldl (fun acc c => acc * 10 + (c.toNat - 48)) 0

/-- Python JSON number scanner, the maximal match of the C scanner's
number grammar: optional minus, an integer part that is `0` or starts
with a nonzero digit, then an optional fraction and an optional
exponent, each consumed only when complete — an incomplete fraction or
exponent is left unconsumed, as the regex leaves it.  An integer-form
match is converted like Python `int`; a fractional or exponent form is
a Python float, carried as its scanned literal. -/
def parseNumber (cs : List Char) : Option (Json × List Char) :=
  let neg := match cs with
    | '-' :: _ => true
    | _ => false
  let cs1 := if neg then cs.tail else cs
  match cs1 with
  | [] => none
  | d :: _ =>
    if ¬ d.isDigit then none
    else
      let ip := if d = '0' then ['0'] else cs1.takeWhile (fun c => c.isDigit)
      let r1 := if d = '0' then cs1.tail else cs1.dropWhile (fun c => c.isDigit)
      let fr := match r1 with
        | '.' :: rs =>
          if (rs.takeWhile (fun c => c.isDigit)).isEmpty then []
          else '.' :: rs.takeWhile (fun c => c.isDigit)
        | _ => []
      let r2 := if fr.isEmpty then r1 else r1.tail.dropWhile (fun c => c.isDigit)
      let ex := match r2 with
        | e :: g :: rs =>
          if e = 'e' ∨ e = 'E' then
            if g = '+' ∨ g = '-' then
              if (rs.takeWhile (fun c => c.isDigit)).isEmpty then []
              else e :: g :: rs.takeWhile (fun c => c.isDigit)
            else if (r2.tail.takeWhile (fun c => c.isDigit)).isEmpty then []
            else e :: r2.tail.takeWhile (fun c => c.isDigit)
          else []
        | _ => []
      let r3 := if ex.isEmpty then r2 else r2.drop ex.length
      if fr.isEmpty && ex.isEmpty then
        some (.num (if neg then -(digitsVal ip : Int) else (digitsVal ip : Int)), r1)
      else
        some (.flt (String.mk ((if neg then ['-'] else []) ++ ip ++ fr ++ ex)), r3)

mutual

/-- Python JSON value parser (fuel-indexed; `loads` supplies ample fuel). -/
def parseVal : Nat → List Char → Option (Json × List Char)
  | 0, _ => none
  | fuel + 1, cs =>
    match skipWs cs with
    | [] => none
    | c :: rest =>
      if c = '"' then (fun p => (mkPyStr p.1, p.2)) <$> parseStrChars (rest.length + 1) rest
      else if c = lbrace then
        match skipWs rest with
        | [] => none
        | d :: rest2 =>
          if d = rbrace then some (.obj .nil, rest2)
          else parseMembers fuel (d :: rest2) .nil
      else if c = '[' then
        match skipWs rest with
        | [] => none
        | d :: rest2 =>
          if d = ']' then some (.arr .nil, rest2)
          else (fun p => (Json.arr p.1, p.2)) <$> parseItems fuel (d :: rest2)
      else if c = 't' then
        match rest with
        | 'r' :: 'u' :: 'e' :: rest2 => some (.bool true, rest2)
        | _ => none
      else if c = 'f' then
        match rest with
        | 'a' :: 'l' :: 's' :: 'e' :: rest2 => some (.bool false, rest2)
        | _ => none
      else if c = 'n' then
        match rest with
        | 'u' :: 'l' :: 'l' :: rest2 => some (.null, rest2)
        | _ => none
      else if c = 'N' then
        match rest with
        | 'a' :: 'N' :: rest2 => some (.flt "NaN", rest2)
        | _ => none
      else if c = 'I' then
        match rest with
        | 'n' :: 'f' :: 'i' :: 'n' :: 'i' :: 't' :: 'y' :: rest2 => some (.flt "Infinity", rest2)
        | _ => none
      else if c = '-' then
        match rest with
        | 'I' :: 'n' :: 'f' :: 'i' :: 'n' :: 'i' :: 't' :: 'y' :: rest2 =>
          some (.flt "-Infinity", rest2)
        | _ => parseNumber (c :: rest)
      else parseNumber (c :: rest)

/-- Members of an object after its opening brace; inserting into the
accumulated dict mirrors Python's handling of duplicate keys. -/
def parseMembers : Nat → List Char → JsonObj → Option (Json × List Char)
  | 0, _, _ => none
  | fuel + 1, cs, acc =>
    match skipWs cs with
    | '"' :: rest =>
      match parseStrChars (rest.length + 1) rest with
      | some (kcs, rest2) =>
        match skipWs rest2 with
        | ':' :: rest3 =>
          match parseVal fuel rest3 with
          | some (v, rest4) =>
            let acc2 := if cpsScalar kcs then jsonSet acc (cpsToString kcs) v
              else jsonSetE acc kcs v
            match skipWs rest4 with
            | ',' :: rest5 => parseMembers fuel rest5 acc2
            | d :: rest5 =>
              if d = rbrace then some (.obj acc2, rest5) else none
            | [] => none
          | none => none
        | _ => none
      | none => none
    | _ => none

/-- Items of an array after its opening bracket. -/
def parseItems : Nat → List Char → Option (JsonList × List Char)
  | 0, _ => none
  | fuel + 1, cs =>
    match parseVal fuel cs with
    | some (v, rest) =>
      match skipWs rest with
      | ',' :: rest2 => (fun p => (JsonList.cons v p.1, p.2)) <$> parseItems fuel rest2
      | ']' :: rest2 => some (JsonList.cons v .nil, rest2)
      | _ => none
    | none => none

end

/-- Python `json.loads`: parse one complete JSON document with the
default scanner semantics — maximal-match numbers, the `Infinity`,
`-Infinity` and `NaN` constants, lone-surrogate `\uXXXX` escapes;
`none` models `json.JSONDecodeError`. -/
def loads (s : String) : Option Json :=
  match parseVal (s.data.length + 1) s.data with
  | some (v, rest) => if (skipWs rest).isEmpty then some v else none
  | none => none

/-! ## The Firehose transform (`lambda_handler`) -/

/-- Inbound Firehose record, with the two fields the handler touches;
`none` models a missing dictionary key. -/
structure InRecord where
  recordId : Option String
  data : Option String
deriving DecidableEq

/-- Outcome emitted per record. -/
structure OutRecord where
  recordId : String
  result : String
  data : String
deriving DecidableEq

/-- Try-body of the per-record loop in `lambda_handler`: base64-decode,
UTF-8-decode, `json.loads` with the `{'message': ...}` fallback envelope,
`encrypt_payload`, `json.dumps` plus a trailing newline, base64-encode.
`none` models any exception raised inside the `try`. -/
def processRecord (data : String) : Option String := do
  let payloadBytes ← b64decodeChars data.data
  let payloadStr ← utf8Decode payloadBytes
  let payload := match loads payloadStr with
    | some j => j
    | none => Json.obj (.cons "message" (.str payloadStr) .nil)
  match encrypt_payload payload with
  | .error _ => none
  | .ok payload2 => some (b64encode (utf8Encode (dumps payload2 ++ "\n")))

/-- Outcome appended for one record whose two keys are both present:
`'Ok'` with the transformed data, or `'ProcessingFailed'` with the
original `record['data']`. -/
def recordOutcome (recordId data : String) : OutRecord :=
  match processRecord data with
  | some out => ⟨recordId, "Ok", out⟩
  | none => ⟨recordId, "ProcessingFailed", data⟩

/-- One iteration of the loop: `record['recordId']` is read outside the
`try`, and the failure handler re-reads `record['data']`, so a missing
key raises `KeyError` out of the whole call (`Except.error ()`). -/
def handleRecord (r : InRecord) : Except Unit OutRecord :=
  match r.recordId with
  | none => .error ()
  | some rid =>
    match r.data with
    | none => .error ()
    | some d => .ok (recordOutcome rid d)

/-- The loop over `event['records']`: outcomes are appended in input
order, and a raised exception aborts the whole call. -/
def mapRecords : List InRecord → Except Unit (List OutRecord)
  | [] => .ok []
  | r :: rs =>
    match handleRecord r with
    | .error e => .error e
    | .ok o =>
      match mapRecords rs with
      | .error e => .error e
      | .ok os => .ok (o :: os)

/-- Python `lambda_handler(event, context)`, keyed on `event['records']`:
`none` models an event without the `'records'` key (it is read before the
loop, so the `KeyError` escapes). -/
def lambda_handler : Option (List InRecord) → Except Unit (List OutRecord)
  | none => .error ()
  | some rs => mapRecords rs

/-- A batch in which every record carries both keys maps to its pointwise
outcomes, in order. -/
theorem mapRecords_complete : ∀ rs : List (String × String),
    mapRecords (rs.map (fun p => ⟨some p.1, some p.2⟩))
      = .ok (rs.map (fun p => recordOutcome p.1 p.2))
  | [] => rfl
  | p :: rs => by
    rw [List.map_cons, mapRecords, List.map_cons]
    rw [mapRecords_complete rs]
    rfl

/-- A record missing a key makes the whole loop raise. -/
theorem mapRecords_error : ∀ rs : List InRecord, ∀ r ∈ rs,
    handleRecord r = .error () → mapRecords rs = .error ()
  | r0 :: rs, r, hr, he => by
    rw [mapRecords]
    rcases List.mem_cons.mp hr with rfl | hmem
    · rw [he]
    · cases h0 : handleRecord r0 with
      | error e => cases e; rfl
      | ok o => rw [mapRecords_error rs r hmem he]

/-! ## Dictionary lemmas -/

theorem jsonGet_set_self : ∀ (o : JsonObj) (k : String) (v : Json),
    jsonGet (jsonSet o k v) k = some v
  | .nil, k, v => by simp [jsonSet, jsonGet]
  | .cons k2 v2 rest, k, v => by
    by_cases h : k2 = k
    · subst h
      simp [jsonSet, jsonGet]
    · simp [jsonSet, jsonGet, h, jsonGet_set_self rest k v]
  | .consE k2 v2 rest, k, v => by
    simp [jsonSet, jsonGet, jsonGet_set_self rest k v]

theorem jsonGet_set_ne : ∀ (o : JsonObj) (k k2 : String) (v : Json), k2 ≠ k →
    jsonGet (jsonSet o k2 v) k = jsonGet o k
  | .nil, k, k2, v, h => by simp [jsonSet, jsonGet, h]
  | .cons k3 v3 rest, k, k2, v, h => by
    by_cases h3 : k3 = k2
    · subst h3
      simp [jsonSet, jsonGet, h]
    · simp [jsonSet, jsonGet, h3, jsonGet_set_ne rest k k2 v h]
  | .consE k3 v3 rest, k, k2, v, h => by
    simp [jsonSet, jsonGet, jsonGet_set_ne rest k k2 v h]

/-! ## Claims -/

/-- Claim C1 (corrected): unsealing a sealed byte sequence with the same
key round-trips whenever the bytes are valid UTF-8, returning the
decoded text with a valid tag.  Over arbitrary byte sequences the
original claim fails: `decrypt_payload` UTF-8-decodes the data bytes, so
non-UTF-8 payload bytes land in the exception path (see the
counterexample). -/
theorem claim_C1 (k b : List Nat) (t : String) (hb : ∀ x ∈ b, x < 256)
    (ht : utf8Decode b = some t) :
    decrypt_payload (sealValue b k) k = (some t, true) := by
  rw [decrypt_seal k b hb, ht]

/-- Claim C1 counterexample: sealing the single non-UTF-8 byte `0xFF`
and unsealing with the same key yields `(none, false)`, not the claimed
`(b, true)`. -/
theorem claim_C1_counterexample :
    decrypt_payload (sealValue [255] secretKey) secretKey = (none, false) := by
  rw [decrypt_seal secretKey [255] (by decide)]
  rfl

/-- Claim C1 witness: the round-trip at the bytes of `"hi"`. -/
theorem claim_C1_witness :
    decrypt_payload (sealValue [104, 105] secretKey) secretKey = (some "hi", true) :=
  claim_C1 secretKey [104, 105] "hi" (by decide) (by decide)

/-- Claim C3: a batch of records all carrying both keys yields exactly
its pointwise outcomes, in input order, each outcome keeping the input
`recordId` and classifying the record as `'Ok'` or `'ProcessingFailed'`
and nothing else. -/
theorem claim_C3 :
    (∀ rs : List (String × String),
      lambda_handler (some (rs.map (fun p => InRecord.mk (some p.1) (some p.2))))
        = .ok (rs.map (fun p => recordOutcome p.1 p.2)) ∧
      (rs.map (fun p => recordOutcome p.1 p.2)).length = rs.length) ∧
    ∀ rid d, (recordOutcome rid d).recordId = rid ∧
      ((recordOutcome rid d).result = "Ok" ∨
        (recordOutcome rid d).result = "ProcessingFailed") := by
  refine ⟨fun rs => ⟨mapRecords_complete rs, by simp⟩, fun rid d => ?_⟩
  unfold recordOutcome
  cases processRecord d <;> simp

/-- Claim C6: the sealed value is exactly
`base64(payload) + ":" + base64(HMAC-SHA256(key, payload))`, and on the
spec's end-to-end envelope with the embedded key the output envelope
carries the marker `'true'` and that sealed payload, whose concrete
value is also computed. -/
theorem claim_C6 :
    (∀ (s : String) (key : List Nat), sealValue (utf8Encode s) key
        = b64encode (utf8Encode s) ++ ":" ++ b64encode (hmacSha256 key (utf8Encode s))) ∧
    encrypt_payload (.obj (.cons "ApplicationData.Encrypt" (.str "true")
        (.cons "ApplicationData.Payload" (.str "sudhir kilani") .nil)))
      = .ok (.obj (.cons "ApplicationData.Encrypt" (.str "true")
          (.cons "ApplicationData.Payload"
            (.str (b64encode (utf8Encode "sudhir kilani") ++ ":"
              ++ b64encode (hmacSha256 secretKey (utf8Encode "sudhir kilani"))))
            (.cons "ApplicationData.Encrypted" (.str "true") .nil)))) ∧
    b64encode (utf8Encode "sudhir kilani") ++ ":"
        ++ b64encode (hmacSha256 secretKey (utf8Encode "sudhir kilani"))
      = "c3VkaGlyIGtpbGFuaQ==:Yvh4DiAOZnISG6QYw9ifiBzBEFOQwote0Q9MZN3Dv5o=" := by
  refine ⟨fun s key => rfl, rfl, by decide⟩

/-- Claim C10: `event['records']` is read before the loop and
`record['recordId']` outside the per-record try, so a missing `records`
key or a record without `recordId` raises out of the whole call and
produces no output sequence, instead of a `ProcessingFailed` outcome. -/
theorem claim_C10 :
    lambda_handler none = .error () ∧
    ∀ (rs : List InRecord) (r : InRecord), r ∈ rs → r.recordId = none →
      lambda_handler (some rs) = .error () := by
  refine ⟨rfl, fun rs r hmem hrid => ?_⟩
  show mapRecords rs = .error ()
  refine mapRecords_error rs r hmem ?_
  rw [handleRecord, hrid]

/-- Claim C10 witness: a two-record batch whose second record lacks
`recordId` makes the whole call raise. -/
theorem claim_C10_witness :
    lambda_handler (some [InRecord.mk (some "a") (some "x"),
      InRecord.mk none (some "y")]) = .error () :=
  claim_C10.2 [InRecord.mk (some "a") (some "x"), InRecord.mk none (some "y")]
    (InRecord.mk none (some "y")) (by decide) rfl

/-- Evaluation of `decrypt_payload` on an input that decodes cleanly. -/
theorem decrypt_eval (s : String) (k : List Nat) (db hb : List Char) (bytes rh : List Nat)
    (t : String) (hsp : splitColon s.data = [db, hb]) (hdb : b64decodeChars db = some bytes)
    (hhb : b64decodeChars hb = some rh) (hu : utf8Decode bytes = some t) :
    decrypt_payload s k = (some t, rh == hmacSha256 k bytes) := by
  unfold decrypt_payload
  simp only [hsp, hdb, hhb, hu]

/-- Either the input splits into two base64-decodable segments whose data
decodes as UTF-8 — and then the outcome is the text with the tag
comparison — or `decrypt_payload` lands in an exception path and returns
`(none, false)`. -/
theorem decrypt_cases (s : String) (k : List Nat) :
    (∃ db hb bytes rh t, splitColon s.data = [db, hb] ∧ b64decodeChars db = some bytes ∧
      b64decodeChars hb = some rh ∧ utf8Decode bytes = some t ∧
      decrypt_payload s k = (some t, rh == hmacSha256 k bytes)) ∨
    decrypt_payload s k = (none, false) := by
  cases hsp : splitColon s.data with
  | nil =>
    right
    unfold decrypt_payload
    rw [hsp]
  | cons db tail =>
    cases tail with
    | nil =>
      right
      unfold decrypt_payload
      rw [hsp]
    | cons hb tail2 =>
      cases tail2 with
      | cons x t3 =>
        right
        unfold decrypt_payload
        rw [hsp]
      | nil =>
        cases hdb : b64decodeChars db with
        | none =>
          right
          unfold decrypt_payload
          simp only [hsp, hdb]
        | some bytes =>
          cases hhb : b64decodeChars hb with
          | none =>
            right
            unfold decrypt_payload
            simp only [hsp, hdb, hhb]
          | some rh =>
            cases hu : utf8Decode bytes with
            | none =>
              right
              unfold decrypt_payload
              simp only [hsp, hdb, hhb, hu]
            | some t =>
              left
              exact ⟨db, hb, bytes, rh, t, rfl, hdb, hhb, hu,
                decrypt_eval s k db hb bytes rh t hsp hdb hhb hu⟩

/-- Claim C2 (corrected): the result is `(text, true)` only when both
segments base64-decode, the data bytes decode as UTF-8, and the
recomputed tag matches; every exception path (missing delimiter, bad
base64, non-UTF-8 data) collapses to `(none, false)`; but a tag mismatch
alone, with both segments decoded and the data decodable, returns the
decoded text alongside `false` — not the claimed `(none, false)`. -/
theorem claim_C2 (s : String) (k : List Nat) :
    ((decrypt_payload s k).2 = true →
      ∃ db hb bytes, splitColon s.data = [db, hb] ∧ b64decodeChars db = some bytes ∧
        b64decodeChars hb = some (hmacSha256 k bytes) ∧
        ∃ t, utf8Decode bytes = some t ∧ (decrypt_payload s k).1 = some t) ∧
    ((decrypt_payload s k).1 = none → (decrypt_payload s k).2 = false) ∧
    (∀ db hb bytes rh t, splitColon s.data = [db, hb] → b64decodeChars db = some bytes →
      b64decodeChars hb = some rh → utf8Decode bytes = some t →
      rh ≠ hmacSha256 k bytes → decrypt_payload s k = (some t, false)) := by
  refine ⟨?_, ?_, ?_⟩
  · intro hv
    rcases decrypt_cases s k with ⟨db, hb, bytes, rh, t, hsp, hdb, hhb, hu, he⟩ | he
    · rw [he] at hv
      have hrh : rh = hmacSha256 k bytes := eq_of_beq hv
      subst hrh
      exact ⟨db, hb, bytes, hsp, hdb, hhb, t, hu, by rw [he]⟩
    · rw [he] at hv
      simp at hv
  · intro h1
    rcases decrypt_cases s k with ⟨db, hb, bytes, rh, t, hsp, hdb, hhb, hu, he⟩ | he
    · rw [he] at h1
      simp at h1
    · rw [he]
  · intro db hb bytes rh t hsp hdb hhb hu hne
    rw [decrypt_eval s k db hb bytes rh t hsp hdb hhb hu, beq_eq_false_iff_ne.mpr hne]

/-- Claim C2 counterexample: `"YQ==:YQ=="` has two well-formed base64
segments (`"a"` and a wrong one-byte tag); the tag mismatch yields
`(some "a", false)`, not the claimed `(none, false)`. -/
theorem claim_C2_counterexample :
    decrypt_payload "YQ==:YQ==" secretKey = (some "a", false) := by decide

/-- Claim C2 witness: the mismatch case applied at `"aGk=:YQ=="`
(data `"hi"`, wrong tag `"a"`). -/
theorem claim_C2_witness : decrypt_payload "aGk=:YQ==" secretKey = (some "hi", false) :=
  (claim_C2 "aGk=:YQ==" secretKey).2.2 ['a', 'G', 'k', '='] ['Y', 'Q', '=', '=']
    [104, 105] [97] "hi" (by decide) (by decide) (by decide) (by decide) (by decide)

/-- Claim C7: `decrypt_payload` is total — any input without the `:`
delimiter, and any two-segment input with an undecodable segment,
returns `(none, false)` rather than raising; in particular the two
malformed inputs of the spec do. -/
theorem claim_C7 (s : String) (k : List Nat) :
    (':' ∉ s.data → decrypt_payload s k = (none, false)) ∧
    (∀ db hb, splitColon s.data = [db, hb] →
      (b64decodeChars db = none ∨ b64decodeChars hb = none) →
      decrypt_payload s k = (none, false)) ∧
    decrypt_payload "not-base64-at-all" k = (none, false) ∧
    decrypt_payload "onlyonesegment" k = (none, false) := by
  refine ⟨?_, ?_, ?_, ?_⟩
  · intro hnc
    unfold decrypt_payload
    simp only [splitColon_no_colon s.data hnc]
  · intro db hb hsp hor
    unfold decrypt_payload
    rcases hor with hd | hd
    · simp only [hsp, hd]
    · cases hdb : b64decodeChars db <;> simp only [hsp, hdb, hd]
  · rfl
  · rfl

/-- Claim C7 witness: the delimiter-free input `"abc"` and the
two-segment input `"a:b"` whose segments are not decodable base64. -/
theorem claim_C7_witness :
    decrypt_payload "abc" secretKey = (none, false) ∧
    decrypt_payload "a:b" secretKey = (none, false) :=
  ⟨(claim_C7 "abc" secretKey).1 (by decide),
   (claim_C7 "a:b" secretKey).2.1 ['a'] ['b'] (by decide) (Or.inl (by decide))⟩

/-- Unfolding of `encrypt_payload` on an object value. -/
theorem encrypt_payload_obj (kvs : JsonObj) :
    encrypt_payload (.obj kvs)
      = match jsonGet kvs "ApplicationData.Encrypt" with
        | some (.str f) => if pyLower f = "true" then encryptBody kvs else .ok (.obj kvs)
        | some (.strE _) => .ok (.obj kvs)
        | none => .ok (.obj kvs)
        | some _ => .error () := rfl

/-- Claim C5: with a string control value reading `'true'` after
lowercasing and a non-empty string payload, the payload field is
replaced by the sealed-value string and the marker field is set to
`'true'`; with the control value absent or reading anything else, or
the payload field absent or empty, the envelope is returned unchanged. -/
theorem claim_C5 (kvs : JsonObj) :
    (∀ f s, jsonGet kvs "ApplicationData.Encrypt" = some (.str f) → pyLower f = "true" →
      jsonGet kvs "ApplicationData.Payload" = some (.str s) → s ≠ "" →
      encrypt_payload (.obj kvs)
          = .ok (.obj (jsonSet (jsonSet kvs "ApplicationData.Payload"
              (.str (sealValue (utf8Encode s) secretKey)))
              "ApplicationData.Encrypted" (.str "true"))) ∧
      jsonGet (jsonSet (jsonSet kvs "ApplicationData.Payload"
              (.str (sealValue (utf8Encode s) secretKey)))
              "ApplicationData.Encrypted" (.str "true")) "ApplicationData.Payload"
          = some (.str (sealValue (utf8Encode s) secretKey)) ∧
      jsonGet (jsonSet (jsonSet kvs "ApplicationData.Payload"
              (.str (sealValue (utf8Encode s) secretKey)))
              "ApplicationData.Encrypted" (.str "true")) "ApplicationData.Encrypted"
          = some (.str "true")) ∧
    ((jsonGet kvs "ApplicationData.Encrypt" = none ∨
        (∃ f, jsonGet kvs "ApplicationData.Encrypt" = some (.str f) ∧ pyLower f ≠ "true")) →
      encrypt_payload (.obj kvs) = .ok (.obj kvs)) ∧
    (∀ f, jsonGet kvs "ApplicationData.Encrypt" = some (.str f) → pyLower f = "true" →
      (jsonGet kvs "ApplicationData.Payload" = none ∨
        jsonGet kvs "ApplicationData.Payload" = some (.str "")) →
      encrypt_payload (.obj kvs) = .ok (.obj kvs)) := by
  refine ⟨fun f s hf hlow hp hs => ?_, fun hother => ?_, fun f hf hlow hp => ?_⟩
  · have hse : s.isEmpty = false := by
      cases hcs : s.isEmpty
      · rfl
      · exact absurd ((String.isEmpty_iff s).mp hcs) hs
    refine ⟨?_, ?_, jsonGet_set_self _ _ _⟩
    · rw [encrypt_payload_obj]
      simp only [hf]
      rw [if_pos hlow]
      unfold encryptBody
      rw [hp]
      simp [jsonTruthy, hse]
    · rw [jsonGet_set_ne _ _ _ _ (by decide), jsonGet_set_self]
  · rcases hother with hn | ⟨f, hf, hne⟩
    · rw [encrypt_payload_obj]
      simp only [hn]
    · rw [encrypt_payload_obj]
      simp only [hf]
      rw [if_neg hne]
  · have hget : (jsonGet kvs "ApplicationData.Payload").getD (.str "") = .str "" := by
      rcases hp with h | h <;> rw [h] <;> rfl
    rw [encrypt_payload_obj]
    simp only [hf]
    rw [if_pos hlow]
    unfold encryptBody
    rw [hget]
    rfl

/-- Claim C5 witness: the three branches at concrete envelopes — flag
`'True'` with payload `'x'` seals, flag `'false'` leaves the envelope
unchanged, and flag `'true'` with an empty payload leaves it unchanged. -/
theorem claim_C5_witness :
    encrypt_payload (.obj (.cons "ApplicationData.Encrypt" (.str "True")
        (.cons "ApplicationData.Payload" (.str "x") .nil)))
      = .ok (.obj (.cons "ApplicationData.Encrypt" (.str "True")
          (.cons "ApplicationData.Payload" (.str (sealValue (utf8Encode "x") secretKey))
            (.cons "ApplicationData.Encrypted" (.str "true") .nil)))) ∧
    encrypt_payload (.obj (.cons "ApplicationData.Encrypt" (.str "false")
        (.cons "ApplicationData.Payload" (.str "x") .nil)))
      = .ok (.obj (.cons "ApplicationData.Encrypt" (.str "false")
          (.cons "ApplicationData.Payload" (.str "x") .nil))) ∧
    encrypt_payload (.obj (.cons "ApplicationData.Encrypt" (.str "true")
        (.cons "ApplicationData.Payload" (.str "") .nil)))
      = .ok (.obj (.cons "ApplicationData.Encrypt" (.str "true")
          (.cons "ApplicationData.Payload" (.str "") .nil))) := by
  refine ⟨?_, ?_, ?_⟩
  · exact ((claim_C5 (.cons "ApplicationData.Encrypt" (.str "True")
      (.cons "ApplicationData.Payload" (.str "x") .nil))).1 "True" "x"
      (by decide) (by decide) (by decide) (by decide)).1
  · exact (claim_C5 (.cons "ApplicationData.Encrypt" (.str "false")
      (.cons "ApplicationData.Payload" (.str "x") .nil))).2.1
      (Or.inr ⟨"false", by decide, by decide⟩)
  · exact (claim_C5 (.cons "ApplicationData.Encrypt" (.str "true")
      (.cons "ApplicationData.Payload" (.str "") .nil))).2.2 "true"
      (by decide) (by decide) (Or.inr (by decide))

/-- Claim C8: a record whose payload base64-decodes to UTF-8 text that
is not parseable JSON is not failed: the text is wrapped as the
single-field envelope `{'message': rawText}` and the record proceeds to
an `'Ok'` outcome carrying the re-encoded envelope. -/
theorem claim_C8 (rid d : String) (bytes : List Nat) (text : String)
    (hb : b64decodeChars d.data = some bytes) (hu : utf8Decode bytes = some text)
    (hl : loads text = none) :
    processRecord d
        = some (b64encode (utf8Encode
            (dumps (Json.obj (.cons "message" (.str text) .nil)) ++ "\n"))) ∧
    recordOutcome rid d
        = ⟨rid, "Ok", b64encode (utf8Encode
            (dumps (Json.obj (.cons "message" (.str text) .nil)) ++ "\n"))⟩ := by
  have hpr : processRecord d
      = some (b64encode (utf8Encode
          (dumps (Json.obj (.cons "message" (.str text) .nil)) ++ "\n"))) := by
    simp [processRecord, hb, hu, hl, encrypt_payload_obj, jsonGet]
  exact ⟨hpr, by unfold recordOutcome; rw [hpr]⟩

/-- Claim C8 witness: the payload `"aGVsbG8="` decodes to the plain text
`"hello"`, which is wrapped and processed to an `'Ok'` outcome. -/
theorem claim_C8_witness :
    recordOutcome "r1" "aGVsbG8="
      = ⟨"r1", "Ok", b64encode (utf8Encode
          (dumps (Json.obj (.cons "message" (.str "hello") .nil)) ++ "\n"))⟩ :=
  (claim_C8 "r1" "aGVsbG8=" [104, 101, 108, 108, 111] "hello"
    (by decide) (by decide) (by decide)).2

/-- Claim C9: a decoded JSON envelope whose control value is not a
string (for example the JSON `true`; a Python `str` is either `.str` or,
with lone surrogates, `.strE`, and both are excluded) makes
`encrypt_payload` raise at `.lower()`, so the record is emitted as
`'ProcessingFailed'` with its original payload rather than sealed or
passed through. -/
theorem claim_C9 (rid d : String) (bytes : List Nat) (text : String) (kvs : JsonObj) (v : Json)
    (hb : b64decodeChars d.data = some bytes) (hu : utf8Decode bytes = some text)
    (hl : loads text = some (.obj kvs))
    (hv : jsonGet kvs "ApplicationData.Encrypt" = some v) (hns : ∀ s, v ≠ .str s)
    (hnsE : ∀ cps, v ≠ .strE cps) :
    encrypt_payload (.obj kvs) = .error () ∧
    recordOutcome rid d = ⟨rid, "ProcessingFailed", d⟩ := by
  have henc : encrypt_payload (.obj kvs) = .error () := by
    rw [encrypt_payload_obj]
    simp only [hv]
  have hpr : processRecord d = none := by
    simp [processRecord, hb, hu, hl, henc]
  exact ⟨henc, by unfold recordOutcome; rw [hpr]⟩

/-- Claim C9 witness: the payload decoding to
`{"ApplicationData.Encrypt": true}` (JSON boolean) is emitted as
`'ProcessingFailed'` with the original payload. -/
theorem claim_C9_witness :
    recordOutcome "r1" "eyJBcHBsaWNhdGlvbkRhdGEuRW5jcnlwdCI6IHRydWV9"
      = ⟨"r1", "ProcessingFailed", "eyJBcHBsaWNhdGlvbkRhdGEuRW5jcnlwdCI6IHRydWV9"⟩ :=
  (claim_C9 "r1" "eyJBcHBsaWNhdGlvbkRhdGEuRW5jcnlwdCI6IHRydWV9"
    (utf8Encode "\x7b\"ApplicationData.Encrypt\": true\x7d")
    "\x7b\"ApplicationData.Encrypt\": true\x7d"
    (.cons "ApplicationData.Encrypt" (.bool true) .nil) (.bool true)
    (by decide) (by decide) (by decide) (by decide)
    (fun s h => Json.noConfusion h) (fun cps h => Json.noConfusion h)).2
